import Mathlib

/-!
Verification development for the typix benchmark tool
(`typix-benchmark/benchmark.py`).

The Python source is shallowly embedded: latencies are modelled as exact
rationals (`ℚ`), the statistics dictionary as an `Option RunStats` where
`none` is the `{"error": "No successful requests"}` sentinel, and the
outcome of the awaited HTTP call as an explicit `HttpOutcome` value.
Percentile indices `int(n * 0.50)`, `int(n * 0.95)`, `int(n * 0.99)` are
modelled as the natural-number floors `n * 50 / 100`, `n * 95 / 100`,
`n * 99 / 100`; the double-precision products `n * 0.50`, `n * 0.95`,
`n * 0.99` truncate to exactly these values for every feasible sample
size `n`.
-/

/-- Embeds the `RequestResult` dataclass: per-request latency in
milliseconds, success flag, and optional error string. -/
structure RequestResult where
  latency_ms : ℚ
  success : Bool
  error : Option String := none
deriving DecidableEq

/-- Embeds the numeric statistics dictionary returned by
`calculate_stats` when at least one request succeeded. -/
structure RunStats where
  total : ℕ
  success : ℕ
  errors : ℕ
  min : ℚ
  max : ℚ
  avg : ℚ
  p50 : ℚ
  p95 : ℚ
  p99 : ℚ
  throughput : ℚ
deriving DecidableEq

/-- Models Python's builtin `min` on a nonempty list; the default value
for the empty list is never used by `calculate_stats`, which returns the
sentinel before taking a minimum. -/
def listMin : List ℚ → ℚ
  | [] => 0
  | x :: xs => xs.foldl Min.min x

/-- Models Python's builtin `max` on a nonempty list; the default value
for the empty list is never used by `calculate_stats`. -/
def listMax : List ℚ → ℚ
  | [] => 0
  | x :: xs => xs.foldl Max.max x

/-- The local variable `successful = [r for r in results if r.success]`
of `calculate_stats`. -/
def successfulResults (results : List RequestResult) : List RequestResult :=
  results.filter (fun r => r.success)

/-- The local variable `latencies = [r.latency_ms for r in successful]`
of `calculate_stats`. -/
def successLatencies (results : List RequestResult) : List ℚ :=
  (successfulResults results).map (fun r => r.latency_ms)

/-- The local variable `sorted_latencies = sorted(latencies)` of
`calculate_stats`; Python's `sorted` is modelled by insertion sort, which
likewise returns an ascending reordering of its input. -/
def sortedLatencies (results : List RequestResult) : List ℚ :=
  List.insertionSort (fun a b => a ≤ b) (successLatencies results)

/-- Embeds `calculate_stats`: filters the successful results, returns the
error sentinel (`none`) when none succeeded, and otherwise the statistics
dictionary.  `sorted_latencies[int(n * p)]` is modelled by `List.getD`
with the floor index (always in range for nonempty input), and the
negative index `sorted_latencies[-1]` by index `n - 1`. -/
def calculate_stats (results : List RequestResult) : Option RunStats :=
  let latencies := successLatencies results
  if latencies.isEmpty then none else
  let sorted_latencies := sortedLatencies results
  let n := sorted_latencies.length
  some
    { total := results.length
      success := (successfulResults results).length
      errors := results.length - (successfulResults results).length
      min := listMin latencies
      max := listMax latencies
      avg := latencies.sum / (latencies.length : ℚ)
      p50 := sorted_latencies.getD (n * 50 / 100) 0
      p95 := if 20 ≤ n then sorted_latencies.getD (n * 95 / 100) 0
             else sorted_latencies.getD (n - 1) 0
      p99 := if 100 ≤ n then sorted_latencies.getD (n * 99 / 100) 0
             else sorted_latencies.getD (n - 1) 0
      throughput := if latencies.isEmpty then (0 : ℚ)
                    else ((successfulResults results).length : ℚ) / (latencies.sum / 1000) }

/-- Outcome of the awaited HTTP call inside `make_request`: either a
response carrying a status code, or a raised exception (transport error,
timeout, protocol failure) carrying its stringified description. -/
inductive HttpOutcome where
  | response (status_code : ℕ)
  | failure (message : String)
deriving DecidableEq

/-- Embeds the outcome handling of `make_request`: a status-200 response
yields a successful result, any other status yields a failed result with
error `"HTTP {status_code}"`, and a raised exception is caught by the
`except` clause and yields a failed result with the exception's message.
The function is total: every outcome produces exactly one
`RequestResult` and nothing propagates to the caller. -/
def make_request (outcome : HttpOutcome) (latency : ℚ) : RequestResult :=
  match outcome with
  | HttpOutcome.response status_code =>
      if status_code = 200 then
        { latency_ms := latency, success := true, error := none }
      else
        { latency_ms := latency, success := false,
          error := some ("HTTP " ++ toString status_code) }
  | HttpOutcome.failure message =>
      { latency_ms := latency, success := false, error := some message }

/-- Default of the `total_requests` parameter in the signature
`async def test_concurrent(concurrency: int, total_requests: int = 50)`. -/
def test_concurrent_default_total_requests : ℕ := 50

/-- Number of requests a `test_concurrent` call issues: the explicit
`total_requests` argument when the caller supplies one, the signature
default otherwise. -/
def test_concurrent_total_requests (concurrency : ℕ) (total_requests : Option ℕ) : ℕ :=
  total_requests.getD test_concurrent_default_total_requests

/-- Concurrency levels swept by `run_ramp_test`. -/
def ramp_concurrency_levels : List ℕ := [10, 20, 30, 40, 50]

/-- Requests issued per ramp stage: `run_ramp_test` calls
`test_concurrent(concurrency, total_requests=concurrency * 5)`. -/
def ramp_stage_total_requests (concurrency : ℕ) : ℕ :=
  test_concurrent_total_requests concurrency (some (concurrency * 5))

/-- Embeds the breaking-point loop at the end of `run_ramp_test`: scan
the per-stage statistics in order, skip stages holding the error
sentinel, and at the first stage whose p99 is at least 800 report that
stage's concurrency and the recommendation `concurrency - 10`; the
`for`-`else` branch (no stage crossed the threshold) is `none`. -/
def find_breaking_point : List (ℕ × Option RunStats) → Option (ℕ × ℤ)
  | [] => none
  | (c, some s) :: rest =>
      if 800 ≤ s.p99 then some (c, (c : ℤ) - 10) else find_breaking_point rest
  | (_, none) :: rest => find_breaking_point rest

/-- State of one of the `bounded_request` tasks launched by
`test_concurrent`: waiting on the semaphore, running `make_request`
inside the semaphore, or completed. -/
inductive TaskState where
  | waiting
  | running
  | done
deriving DecidableEq

/-- Tests whether a task currently holds a semaphore slot. -/
def isRunning : TaskState → Bool
  | TaskState.running => true
  | _ => false

/-- Tests whether a task is still waiting on the semaphore. -/
def isWaiting : TaskState → Bool
  | TaskState.waiting => true
  | _ => false

/-- Number of tasks currently inside the semaphore. -/
def countRunning (ts : List TaskState) : ℕ := ts.countP isRunning

/-- Number of tasks still waiting on the semaphore. -/
def countWaiting (ts : List TaskState) : ℕ := ts.countP isWaiting

/-- Small-step semantics of `test_concurrent`'s semaphore scheduling: a
waiting task may enter the semaphore only while fewer than `C` tasks are
inside (`async with semaphore`), and a running task may complete at any
time, releasing its slot whether the request succeeded or failed. -/
inductive SemStep (C : ℕ) : List TaskState → List TaskState → Prop
  | acquire (l r : List TaskState) :
      countRunning (l ++ TaskState.waiting :: r) < C →
      SemStep C (l ++ TaskState.waiting :: r) (l ++ TaskState.running :: r)
  | release (l r : List TaskState) :
      SemStep C (l ++ TaskState.running :: r) (l ++ TaskState.done :: r)

/-- Initial scheduler state: `test_concurrent` creates all
`total_requests` tasks up front, each waiting on the semaphore. -/
def semInit (N : ℕ) : List TaskState := List.replicate N TaskState.waiting

/-- States reachable by the scheduler of a run with concurrency `C` and
`N` requests. -/
def semReach (C N : ℕ) (s : List TaskState) : Prop :=
  Relation.ReflTransGen (SemStep C) (semInit N) s

/-- Termination measure of the scheduler: strictly decreases with every
step, so every run completes within `2 * N` steps. -/
def semMeasure (ts : List TaskState) : ℕ := 2 * countWaiting ts + countRunning ts

/-! ### Basic lemmas about the statistics computation -/

lemma successLatencies_eq_nil_iff (results : List RequestResult) :
    successLatencies results = [] ↔ successfulResults results = [] := by
  simp [successLatencies]

/-- Value of the statistics dictionary in the successful branch of
`calculate_stats`, as a function of the input collection. -/
def statsOf (results : List RequestResult) : RunStats :=
  { total := results.length
    success := (successfulResults results).length
    errors := results.length - (successfulResults results).length
    min := listMin (successLatencies results)
    max := listMax (successLatencies results)
    avg := (successLatencies results).sum / ((successLatencies results).length : ℚ)
    p50 := (sortedLatencies results).getD ((sortedLatencies results).length * 50 / 100) 0
    p95 := if 20 ≤ (sortedLatencies results).length then
             (sortedLatencies results).getD ((sortedLatencies results).length * 95 / 100) 0
           else (sortedLatencies results).getD ((sortedLatencies results).length - 1) 0
    p99 := if 100 ≤ (sortedLatencies results).length then
             (sortedLatencies results).getD ((sortedLatencies results).length * 99 / 100) 0
           else (sortedLatencies results).getD ((sortedLatencies results).length - 1) 0
    throughput := ((successfulResults results).length : ℚ) /
      ((successLatencies results).sum / 1000) }

lemma calculate_stats_of_ne_nil (results : List RequestResult)
    (h : successLatencies results ≠ []) :
    calculate_stats results = some (statsOf results) := by
  have h' : (successLatencies results).isEmpty = false := by
    simpa [List.isEmpty_iff] using h
  simp [calculate_stats, statsOf, h']

lemma calculate_stats_eq_some_iff (results : List RequestResult) (s : RunStats) :
    calculate_stats results = some s ↔
      successLatencies results ≠ [] ∧ s = statsOf results := by
  by_cases h : successLatencies results = []
  · simp [calculate_stats, h]
  · rw [calculate_stats_of_ne_nil results h]
    constructor
    · intro hs
      exact ⟨h, (Option.some_injective _ hs).symm⟩
    · intro hs
      rw [hs.2]

/-! ### Claim theorems about sentinel, executor and defaults -/

/-- C3: a result collection whose successful subset is empty (for
example an all-failed collection) makes `calculate_stats` return the
`"No successful requests"` sentinel — modelled as `none`, which carries
no numeric field at all — and conversely the sentinel appears only in
that case, so no arithmetic is ever attempted on an empty sample. -/
theorem no_success_sentinel (results : List RequestResult) :
    calculate_stats results = none ↔ successfulResults results = [] := by
  by_cases h : successLatencies results = []
  · have hs := (successLatencies_eq_nil_iff results).mp h
    simp [calculate_stats, h, hs]
  · rw [calculate_stats_of_ne_nil results h]
    constructor
    · intro hc
      exact Option.noConfusion hc
    · intro hsucc
      exact absurd ((successLatencies_eq_nil_iff results).mpr hsucc) h

/-- C5: the Request Executor maps an HTTP response with the success
status (200) to a successful `RequestResult` with an absent error, and a
response with any other status code `S` to a failed `RequestResult`
whose error is exactly the string `"HTTP S"`. -/
theorem http_status_to_result (status_code : ℕ) (latency : ℚ) :
    (status_code = 200 →
      make_request (HttpOutcome.response status_code) latency =
        { latency_ms := latency, success := true, error := none }) ∧
    (status_code ≠ 200 →
      make_request (HttpOutcome.response status_code) latency =
        { latency_ms := latency, success := false,
          error := some ("HTTP " ++ toString status_code) }) := by
  refine ⟨fun h => ?_, fun h => ?_⟩ <;> simp [make_request, h]

/-- Witness for C5 at status 200 and status 500. -/
theorem http_status_to_result_witness :
    make_request (HttpOutcome.response 200) 1 =
      { latency_ms := 1, success := true, error := none } ∧
    make_request (HttpOutcome.response 500) 7 =
      { latency_ms := 7, success := false, error := some ("HTTP 500") } := by
  constructor
  · exact (http_status_to_result 200 1).1 rfl
  · have h := (http_status_to_result 500 7).2 (by decide)
    rw [h]
    decide

/-- C6: every failure mode of the Request Executor — a raised transport,
timeout or protocol exception, or a non-success HTTP status — still
terminates in exactly one `RequestResult`, with `success = false` and a
present error string; `make_request` is a total function, so no
exception ever propagates past the Executor's boundary in the model. -/
theorem request_failures_absorbed (outcome : HttpOutcome) (latency : ℚ)
    (hfail : outcome ≠ HttpOutcome.response 200) :
    (make_request outcome latency).success = false ∧
    ((make_request outcome latency).error).isSome = true := by
  cases outcome with
  | response sc =>
      have hsc : sc ≠ 200 := fun e => hfail (by rw [e])
      simp [make_request, hsc]
  | failure m => simp [make_request]

/-- Witness for C6 on a timeout-style exception. -/
theorem request_failures_absorbed_witness :
    (make_request (HttpOutcome.failure ("Request timed out")) 30000).success = false ∧
    ((make_request (HttpOutcome.failure ("Request timed out")) 30000).error).isSome = true :=
  request_failures_absorbed (HttpOutcome.failure ("Request timed out")) 30000
    (fun h => HttpOutcome.noConfusion h)

/-- C8 counterexample: calling the fixed-concurrency driver with
concurrency 20 and no explicit request count issues the signature
default of 50 requests, not 20 × 5 = 100 — the default in
`test_concurrent(concurrency, total_requests=50)` is a constant. -/
theorem default_total_requests_counterexample :
    test_concurrent_total_requests 20 none = 50 ∧
    test_concurrent_total_requests 20 none ≠ 20 * 5 := by
  constructor <;> decide

/-- C8 amended: when `total_requests` is not supplied, `test_concurrent`
uses the constant signature default 50 regardless of the concurrency;
the `C × 5` count comes from the call sites — each ramp stage (and the
`--concurrent` path) passes `total_requests = concurrency * 5`
explicitly. -/
theorem default_total_requests_amended :
    (∀ concurrency : ℕ,
      test_concurrent_total_requests concurrency none =
        test_concurrent_default_total_requests) ∧
    test_concurrent_default_total_requests = 50 ∧
    (∀ concurrency : ℕ,
      ramp_stage_total_requests concurrency = concurrency * 5) :=
  ⟨fun _ => rfl, rfl, fun _ => rfl⟩

/-! ### Lemmas about list minima, maxima and sorted indexing -/

lemma foldl_min_le_init (xs : List ℚ) (a : ℚ) : xs.foldl Min.min a ≤ a := by
  induction xs generalizing a with
  | nil => simp
  | cons x xs ih =>
      simp only [List.foldl_cons]
      exact le_trans (ih (Min.min a x)) (min_le_left a x)

lemma foldl_min_le_mem (xs : List ℚ) : ∀ a b : ℚ, b ∈ xs → xs.foldl Min.min a ≤ b := by
  induction xs with
  | nil => intro a b hb; cases hb
  | cons x xs ih =>
      intro a b hb
      simp only [List.foldl_cons]
      rcases List.mem_cons.mp hb with rfl | hb2
      · exact le_trans (foldl_min_le_init xs (Min.min a b)) (min_le_right a b)
      · exact ih (Min.min a x) b hb2

lemma foldl_min_mem (xs : List ℚ) :
    ∀ a : ℚ, xs.foldl Min.min a = a ∨ xs.foldl Min.min a ∈ xs := by
  induction xs with
  | nil => intro a; left; rfl
  | cons x xs ih =>
      intro a
      simp only [List.foldl_cons]
      rcases ih (Min.min a x) with h | h
      · rcases min_choice a x with h2 | h2
        · left; rw [h, h2]
        · right; rw [h, h2]; exact List.mem_cons_self x xs
      · right; exact List.mem_cons_of_mem x h

lemma listMin_mem (l : List ℚ) (h : l ≠ []) : listMin l ∈ l := by
  cases l with
  | nil => exact absurd rfl h
  | cons x xs =>
      show xs.foldl Min.min x ∈ x :: xs
      rcases foldl_min_mem xs x with h2 | h2
      · rw [h2]; exact List.mem_cons_self x xs
      · exact List.mem_cons_of_mem x h2

lemma listMin_le (l : List ℚ) (b : ℚ) (hb : b ∈ l) : listMin l ≤ b := by
  cases l with
  | nil => cases hb
  | cons x xs =>
      show xs.foldl Min.min x ≤ b
      rcases List.mem_cons.mp hb with rfl | hb2
      · exact foldl_min_le_init xs b
      · exact foldl_min_le_mem xs x b hb2

lemma foldl_max_init_le (xs : List ℚ) (a : ℚ) : a ≤ xs.foldl Max.max a := by
  induction xs generalizing a with
  | nil => simp
  | cons x xs ih =>
      simp only [List.foldl_cons]
      exact le_trans (le_max_left a x) (ih (Max.max a x))

lemma foldl_max_mem_le (xs : List ℚ) : ∀ a b : ℚ, b ∈ xs → b ≤ xs.foldl Max.max a := by
  induction xs with
  | nil => intro a b hb; cases hb
  | cons x xs ih =>
      intro a b hb
      simp only [List.foldl_cons]
      rcases List.mem_cons.mp hb with rfl | hb2
      · exact le_trans (le_max_right a b) (foldl_max_init_le xs (Max.max a b))
      · exact ih (Max.max a x) b hb2

lemma foldl_max_mem (xs : List ℚ) :
    ∀ a : ℚ, xs.foldl Max.max a = a ∨ xs.foldl Max.max a ∈ xs := by
  induction xs with
  | nil => intro a; left; rfl
  | cons x xs ih =>
      intro a
      simp only [List.foldl_cons]
      rcases ih (Max.max a x) with h | h
      · rcases max_choice a x with h2 | h2
        · left; rw [h, h2]
        · right; rw [h, h2]; exact List.mem_cons_self x xs
      · right; exact List.mem_cons_of_mem x h

lemma listMax_mem (l : List ℚ) (h : l ≠ []) : listMax l ∈ l := by
  cases l with
  | nil => exact absurd rfl h
  | cons x xs =>
      show xs.foldl Max.max x ∈ x :: xs
      rcases foldl_max_mem xs x with h2 | h2
      · rw [h2]; exact List.mem_cons_self x xs
      · exact List.mem_cons_of_mem x h2

lemma le_listMax (l : List ℚ) (b : ℚ) (hb : b ∈ l) : b ≤ listMax l := by
  cases l with
  | nil => cases hb
  | cons x xs =>
      show b ≤ xs.foldl Max.max x
      rcases List.mem_cons.mp hb with rfl | hb2
      · exact foldl_max_init_le xs b
      · exact foldl_max_mem_le xs x b hb2

lemma listMin_perm {l1 l2 : List ℚ} (h : l1.Perm l2) : listMin l1 = listMin l2 := by
  rcases eq_or_ne l1 [] with rfl | h1
  · rw [← h.nil_eq]
  · have h2 : l2 ≠ [] := by
      intro e
      rw [e] at h
      exact h1 h.eq_nil
    exact le_antisymm
      (listMin_le l1 (listMin l2) (h.mem_iff.mpr (listMin_mem l2 h2)))
      (listMin_le l2 (listMin l1) (h.mem_iff.mp (listMin_mem l1 h1)))

lemma listMax_perm {l1 l2 : List ℚ} (h : l1.Perm l2) : listMax l1 = listMax l2 := by
  rcases eq_or_ne l1 [] with rfl | h1
  · rw [← h.nil_eq]
  · have h2 : l2 ≠ [] := by
      intro e
      rw [e] at h
      exact h1 h.eq_nil
    exact le_antisymm
      (le_listMax l2 (listMax l1) (h.mem_iff.mp (listMax_mem l1 h1)))
      (le_listMax l1 (listMax l2) (h.mem_iff.mpr (listMax_mem l2 h2)))

lemma getD_mem_of_lt (l : List ℚ) (i : ℕ) (hi : i < l.length) : l.getD i 0 ∈ l := by
  rw [List.getD_eq_getElem l 0 hi]
  exact List.getElem_mem hi

lemma sorted_getD_mono (l : List ℚ) (hs : l.Sorted (fun a b => a ≤ b)) (i j : ℕ)
    (hij : i ≤ j) (hj : j < l.length) : l.getD i 0 ≤ l.getD j 0 := by
  have hi : i < l.length := lt_of_le_of_lt hij hj
  rw [List.getD_eq_getElem l 0 hi, List.getD_eq_getElem l 0 hj]
  have hf : (⟨i, hi⟩ : Fin l.length) ≤ ⟨j, hj⟩ := hij
  have := List.Sorted.rel_get_of_le hs hf
  simpa using this

lemma sorted_getD_last_eq_listMax (l : List ℚ) (hne : l ≠ [])
    (hs : l.Sorted (fun a b => a ≤ b)) :
    l.getD (l.length - 1) 0 = listMax l := by
  have hlen : 0 < l.length := List.length_pos.mpr hne
  have hlast : l.length - 1 < l.length := Nat.sub_lt hlen Nat.one_pos
  refine le_antisymm (le_listMax l _ (getD_mem_of_lt l _ hlast)) ?_
  obtain ⟨i, hi, hieq⟩ := List.getElem_of_mem (listMax_mem l hne)
  rw [← hieq, ← List.getD_eq_getElem l 0 hi]
  exact sorted_getD_mono l hs i (l.length - 1) (by omega) hlast

/-! ### Percentile and throughput claims -/

/-- C1: `calculate_stats` sorts the successful latencies ascending (the
sorted list is an ascending-ordered permutation of them); p50 is the
element at index `⌊n * 0.50⌋`; p95 is the element at index `⌊n * 0.95⌋`
when `n ≥ 20` and the maximum latency otherwise; p99 is the element at
index `⌊n * 0.99⌋` when `n ≥ 100` and the maximum latency otherwise.
Instantiating `n = 19` and `n = 20` gives the claim's boundary cases. -/
theorem percentile_selection (results : List RequestResult) (s : RunStats)
    (h : calculate_stats results = some s) :
    (sortedLatencies results).Sorted (fun a b => a ≤ b) ∧
    (sortedLatencies results).Perm (successLatencies results) ∧
    s.p50 = (sortedLatencies results).getD
      ((successLatencies results).length * 50 / 100) 0 ∧
    (20 ≤ (successLatencies results).length →
      s.p95 = (sortedLatencies results).getD
        ((successLatencies results).length * 95 / 100) 0) ∧
    ((successLatencies results).length < 20 →
      s.p95 = listMax (successLatencies results)) ∧
    (100 ≤ (successLatencies results).length →
      s.p99 = (sortedLatencies results).getD
        ((successLatencies results).length * 99 / 100) 0) ∧
    ((successLatencies results).length < 100 →
      s.p99 = listMax (successLatencies results)) := by
  obtain ⟨hne, rfl⟩ := (calculate_stats_eq_some_iff results s).mp h
  have hperm : (sortedLatencies results).Perm (successLatencies results) :=
    List.perm_insertionSort _ _
  have hsorted : (sortedLatencies results).Sorted (fun a b => a ≤ b) :=
    List.sorted_insertionSort _ _
  have hlen : (sortedLatencies results).length = (successLatencies results).length :=
    hperm.length_eq
  have hne2 : sortedLatencies results ≠ [] := by
    intro e
    rw [e] at hperm
    exact hne hperm.nil_eq.symm
  have hmax : listMax (sortedLatencies results) = listMax (successLatencies results) :=
    listMax_perm hperm
  refine ⟨hsorted, hperm, ?_, ?_, ?_, ?_, ?_⟩
  · rw [← hlen]; rfl
  · intro h20
    rw [← hlen] at h20 ⊢
    simp only [statsOf]
    rw [if_pos h20]
  · intro h20
    rw [← hlen] at h20
    have hnot : ¬ 20 ≤ (sortedLatencies results).length := by omega
    simp only [statsOf]
    rw [if_neg hnot, sorted_getD_last_eq_listMax _ hne2 hsorted, hmax]
  · intro h100
    rw [← hlen] at h100 ⊢
    simp only [statsOf]
    rw [if_pos h100]
  · intro h100
    rw [← hlen] at h100
    have hnot : ¬ 100 ≤ (sortedLatencies results).length := by omega
    simp only [statsOf]
    rw [if_neg hnot, sorted_getD_last_eq_listMax _ hne2 hsorted, hmax]

/-- Nineteen successful results with latencies 1..19 ms, exercising the
p95 fallback boundary. -/
def resultsNineteen : List RequestResult :=
  (List.range 19).map (fun i => { latency_ms := (i : ℚ) + 1, success := true })

/-- Twenty successful results with latencies 1..20 ms, exercising the
true p95 index at the boundary. -/
def resultsTwenty : List RequestResult :=
  (List.range 20).map (fun i => { latency_ms := (i : ℚ) + 1, success := true })

/-- Witness for C1: with exactly 19 successes p95 is the maximum
latency, with exactly 20 it is the element at the true sorted index
`⌊20 * 0.95⌋ = 19`. -/
theorem percentile_selection_witness :
    (successLatencies resultsNineteen).length < 20 ∧
    (statsOf resultsNineteen).p95 = listMax (successLatencies resultsNineteen) ∧
    20 ≤ (successLatencies resultsTwenty).length ∧
    (statsOf resultsTwenty).p95 =
      (sortedLatencies resultsTwenty).getD
        ((successLatencies resultsTwenty).length * 95 / 100) 0 := by
  refine ⟨by decide, ?_, by decide, ?_⟩
  · exact (percentile_selection resultsNineteen (statsOf resultsNineteen)
      (calculate_stats_of_ne_nil _ (by decide))).2.2.2.2.1 (by decide)
  · exact (percentile_selection resultsTwenty (statsOf resultsTwenty)
      (calculate_stats_of_ne_nil _ (by decide))).2.2.2.1 (by decide)

/-- C2: the throughput field equals the number of successful results
divided by the sum of their latencies converted to seconds — the
aggregate-time figure, computed from latency sums only, with no
wall-clock quantity in the model at all. -/
theorem throughput_aggregate_time (results : List RequestResult) (s : RunStats)
    (h : calculate_stats results = some s) :
    s.throughput = (s.success : ℚ) / ((successLatencies results).sum / 1000) := by
  obtain ⟨hne, rfl⟩ := (calculate_stats_eq_some_iff results s).mp h
  rfl

/-- Three successful results with latencies 100, 200 and 300 ms. -/
def resultsThree : List RequestResult :=
  [ { latency_ms := 100, success := true },
    { latency_ms := 200, success := true },
    { latency_ms := 300, success := true } ]

/-- Witness for C2: for latencies [100ms, 200ms, 300ms] the throughput
is 3 / 0.6 = 5. -/
theorem throughput_aggregate_time_witness :
    (statsOf resultsThree).throughput =
      ((statsOf resultsThree).success : ℚ) /
        ((successLatencies resultsThree).sum / 1000) ∧
    (statsOf resultsThree).throughput = 5 := by
  have h := throughput_aggregate_time resultsThree (statsOf resultsThree)
    (calculate_stats_of_ne_nil _ (by decide))
  refine ⟨h, ?_⟩
  rw [h]
  norm_num [resultsThree, successLatencies, successfulResults, statsOf]

/-! ### Ramp breaking-point claim -/

/-- C4: for per-stage statistics listed at strictly ascending
concurrency levels, the reported breaking point is the first — hence
lowest — concurrency whose p99 is at least 800ms, the recommendation is
that concurrency minus 10, and the "sustained all tested levels" outcome
(`none`) occurs exactly when no stage reaches a p99 of 800ms. -/
theorem breaking_point_first (stages : List (ℕ × RunStats))
    (hmono : stages.Pairwise (fun a b => a.1 < b.1)) :
    (∀ c rec, find_breaking_point (stages.map (fun p => (p.1, some p.2))) =
        some (c, rec) →
      rec = (c : ℤ) - 10 ∧
      (∃ s, (c, s) ∈ stages ∧ 800 ≤ s.p99) ∧
      (∀ c2 s2, (c2, s2) ∈ stages → 800 ≤ s2.p99 → c ≤ c2)) ∧
    (find_breaking_point (stages.map (fun p => (p.1, some p.2))) = none ↔
      ∀ c2 s2, (c2, s2) ∈ stages → s2.p99 < 800) := by
  revert hmono
  induction stages with
  | nil =>
      intro hmono
      constructor
      · intro c rec h
        simp [find_breaking_point] at h
      · simp [find_breaking_point]
  | cons p rest ih =>
      intro hmono
      obtain ⟨c0, s0⟩ := p
      have hhead := (List.pairwise_cons.mp hmono).1
      have hmono2 := (List.pairwise_cons.mp hmono).2
      by_cases h0 : 800 ≤ s0.p99
      · constructor
        · intro c rec h
          simp only [List.map_cons, find_breaking_point, if_pos h0,
            Option.some.injEq, Prod.mk.injEq] at h
          obtain ⟨rfl, rfl⟩ := h
          refine ⟨rfl, ⟨s0, List.mem_cons_self _ _, h0⟩, ?_⟩
          intro c2 s2 hmem h2
          rcases List.mem_cons.mp hmem with heq | hmem2
          · injection heq with h1 h2
            subst h1
            exact le_refl _
          · exact le_of_lt (hhead (c2, s2) hmem2)
        · constructor
          · intro h
            simp [find_breaking_point, h0] at h
          · intro hall
            exact absurd h0 (not_le.mpr (hall c0 s0 (List.mem_cons_self _ _)))
      · have hstep :
            find_breaking_point (((c0, s0) :: rest).map (fun p => (p.1, some p.2))) =
              find_breaking_point (rest.map (fun p => (p.1, some p.2))) := by
          simp [find_breaking_point, h0]
        obtain ⟨ih1, ih2⟩ := ih hmono2
        constructor
        · intro c rec h
          rw [hstep] at h
          obtain ⟨hrec, ⟨s, hs, hsp⟩, hminl⟩ := ih1 c rec h
          refine ⟨hrec, ⟨s, List.mem_cons_of_mem _ hs, hsp⟩, ?_⟩
          intro c2 s2 hmem h2
          rcases List.mem_cons.mp hmem with heq | hmem2
          · exfalso
            injection heq with h1 h2'
            subst h2'
            exact h0 h2
          · exact hminl c2 s2 hmem2 h2
        · rw [hstep]
          constructor
          · intro h c2 s2 hmem
            rcases List.mem_cons.mp hmem with heq | hmem2
            · injection heq with h1 h2'
              subst h2'
              exact not_le.mp h0
            · exact ih2.mp h c2 s2 hmem2
          · intro hall
            exact ih2.mpr (fun c2 s2 hm => hall c2 s2 (List.mem_cons_of_mem _ hm))

/-- Stage statistics with the given p99 latency and all other fields
zero, for exercising the breaking-point scan. -/
def stageStats (p : ℚ) : RunStats :=
  { total := 0, success := 0, errors := 0, min := 0, max := 0, avg := 0,
    p50 := 0, p95 := 0, p99 := p, throughput := 0 }

/-- Five ramp-sweep stages with p99 values [200, 300, 400, 850, 900] ms
at concurrency levels [10, 20, 30, 40, 50]. -/
def rampExampleStages : List (ℕ × RunStats) :=
  [(10, stageStats 200), (20, stageStats 300), (30, stageStats 400),
   (40, stageStats 850), (50, stageStats 900)]

/-- Witness for C4: on the example stages the breaking point is 40 with
recommendation 30, the recommendation is the breaking point minus 10,
and minimality applies to the later crossing stage at level 50. -/
theorem breaking_point_first_witness :
    find_breaking_point (rampExampleStages.map (fun p => (p.1, some p.2))) =
      some (40, 30) ∧
    (30 : ℤ) = ((40 : ℕ) : ℤ) - 10 ∧
    (40 : ℕ) ≤ 50 := by
  have heq : find_breaking_point (rampExampleStages.map (fun p => (p.1, some p.2))) =
      some (40, 30) := by
    norm_num [rampExampleStages, find_breaking_point, stageStats]
  have h := (breaking_point_first rampExampleStages
    (by norm_num [rampExampleStages])).1 40 30 heq
  exact ⟨heq, h.1,
    h.2.2 50 (stageStats 900) (by simp [rampExampleStages]) (by norm_num [stageStats])⟩

/-! ### Permutation invariance of the statistics -/

/-- C9: `calculate_stats` is permutation-invariant — two collections
that are reorderings of each other yield identical statistics (or both
the sentinel), so collecting results in completion order rather than
launch order never changes the reported metrics. -/
theorem stats_perm_invariant (results1 results2 : List RequestResult)
    (h : results1.Perm results2) :
    calculate_stats results1 = calculate_stats results2 := by
  have hsucc : (successfulResults results1).Perm (successfulResults results2) :=
    h.filter _
  have hlat : (successLatencies results1).Perm (successLatencies results2) :=
    hsucc.map _
  by_cases h1 : successLatencies results1 = []
  · have h2 : successLatencies results2 = [] := by
      rw [h1] at hlat
      exact hlat.nil_eq.symm
    simp [calculate_stats, h1, h2]
  · have h2 : successLatencies results2 ≠ [] := by
      intro e
      rw [e] at hlat
      exact h1 hlat.eq_nil
    rw [calculate_stats_of_ne_nil _ h1, calculate_stats_of_ne_nil _ h2]
    have hsorted_eq : sortedLatencies results1 = sortedLatencies results2 :=
      List.eq_of_perm_of_sorted
        ((List.perm_insertionSort _ _).trans
          (hlat.trans (List.perm_insertionSort _ _).symm))
        (List.sorted_insertionSort _ _) (List.sorted_insertionSort _ _)
    simp only [statsOf]
    rw [hsucc.length_eq, hlat.sum_eq, h.length_eq, hsorted_eq,
      listMin_perm hlat, listMax_perm hlat, hlat.length_eq]

/-- A successful result for the C9 witness. -/
def swapResultA : RequestResult := { latency_ms := 100, success := true }

/-- A failed result for the C9 witness. -/
def swapResultB : RequestResult :=
  { latency_ms := 250, success := false, error := some ("HTTP 500") }

/-- Witness for C9: swapping two collected results leaves the computed
statistics unchanged. -/
theorem stats_perm_invariant_witness :
    calculate_stats [swapResultB, swapResultA] =
      calculate_stats [swapResultA, swapResultB] :=
  stats_perm_invariant _ _ (List.Perm.swap swapResultA swapResultB [])

/-! ### Ordering invariants of the statistics -/

lemma card_mul_le_sum (l : List ℚ) (a : ℚ) (h : ∀ x ∈ l, a ≤ x) :
    a * (l.length : ℚ) ≤ l.sum := by
  induction l with
  | nil => simp
  | cons x xs ih =>
      have hx := h x (List.mem_cons_self x xs)
      have hxs := ih (fun y hy => h y (List.mem_cons_of_mem x hy))
      simp only [List.sum_cons, List.length_cons]
      push_cast
      have hexp : a * ((xs.length : ℚ) + 1) = a * (xs.length : ℚ) + a := by ring
      rw [hexp]
      linarith

lemma sum_le_card_mul (l : List ℚ) (a : ℚ) (h : ∀ x ∈ l, x ≤ a) :
    l.sum ≤ a * (l.length : ℚ) := by
  induction l with
  | nil => simp
  | cons x xs ih =>
      have hx := h x (List.mem_cons_self x xs)
      have hxs := ih (fun y hy => h y (List.mem_cons_of_mem x hy))
      simp only [List.sum_cons, List.length_cons]
      push_cast
      have hexp : a * ((xs.length : ℚ) + 1) = a * (xs.length : ℚ) + a := by ring
      rw [hexp]
      linarith

/-- C10: whenever `calculate_stats` produces statistics, they satisfy
`min ≤ avg ≤ max` and `min ≤ p50 ≤ p95 ≤ p99 ≤ max`, and each reported
percentile is an actual observed latency drawn from the successful
sample — in particular the fallback cases never exceed the maximum. -/
theorem stats_order_invariant (results : List RequestResult) (s : RunStats)
    (h : calculate_stats results = some s) :
    s.min ≤ s.avg ∧ s.avg ≤ s.max ∧
    s.min ≤ s.p50 ∧ s.p50 ≤ s.p95 ∧ s.p95 ≤ s.p99 ∧ s.p99 ≤ s.max ∧
    s.p50 ∈ successLatencies results ∧ s.p95 ∈ successLatencies results ∧
    s.p99 ∈ successLatencies results := by
  obtain ⟨hne, rfl⟩ := (calculate_stats_eq_some_iff results s).mp h
  have hperm : (sortedLatencies results).Perm (successLatencies results) :=
    List.perm_insertionSort _ _
  have hsorted : (sortedLatencies results).Sorted (fun a b => a ≤ b) :=
    List.sorted_insertionSort _ _
  have hne2 : sortedLatencies results ≠ [] := by
    intro e
    rw [e] at hperm
    exact hne hperm.nil_eq.symm
  have hn : 0 < (sortedLatencies results).length := List.length_pos.mpr hne2
  have hp50 : (statsOf results).p50 =
      (sortedLatencies results).getD
        ((sortedLatencies results).length * 50 / 100) 0 := rfl
  have hp95 : (statsOf results).p95 =
      (sortedLatencies results).getD
        (if 20 ≤ (sortedLatencies results).length then
          (sortedLatencies results).length * 95 / 100
         else (sortedLatencies results).length - 1) 0 :=
    (apply_ite (fun i => (sortedLatencies results).getD i 0) _ _ _).symm
  have hp99 : (statsOf results).p99 =
      (sortedLatencies results).getD
        (if 100 ≤ (sortedLatencies results).length then
          (sortedLatencies results).length * 99 / 100
         else (sortedLatencies results).length - 1) 0 :=
    (apply_ite (fun i => (sortedLatencies results).getD i 0) _ _ _).symm
  have hi50 : (sortedLatencies results).length * 50 / 100 <
      (sortedLatencies results).length := by omega
  have hj95lt : (if 20 ≤ (sortedLatencies results).length then
      (sortedLatencies results).length * 95 / 100
    else (sortedLatencies results).length - 1) < (sortedLatencies results).length := by
    split <;> omega
  have hj99lt : (if 100 ≤ (sortedLatencies results).length then
      (sortedLatencies results).length * 99 / 100
    else (sortedLatencies results).length - 1) < (sortedLatencies results).length := by
    split <;> omega
  have h5095 : (sortedLatencies results).length * 50 / 100 ≤
      (if 20 ≤ (sortedLatencies results).length then
        (sortedLatencies results).length * 95 / 100
       else (sortedLatencies results).length - 1) := by
    split <;> omega
  have h9599 : (if 20 ≤ (sortedLatencies results).length then
      (sortedLatencies results).length * 95 / 100
    else (sortedLatencies results).length - 1) ≤
      (if 100 ≤ (sortedLatencies results).length then
        (sortedLatencies results).length * 99 / 100
       else (sortedLatencies results).length - 1) := by
    split <;> split <;> omega
  have hm50 : (sortedLatencies results).getD
      ((sortedLatencies results).length * 50 / 100) 0 ∈ successLatencies results :=
    hperm.mem_iff.mp (getD_mem_of_lt _ _ hi50)
  have hm95 : (sortedLatencies results).getD
      (if 20 ≤ (sortedLatencies results).length then
        (sortedLatencies results).length * 95 / 100
       else (sortedLatencies results).length - 1) 0 ∈ successLatencies results :=
    hperm.mem_iff.mp (getD_mem_of_lt _ _ hj95lt)
  have hm99 : (sortedLatencies results).getD
      (if 100 ≤ (sortedLatencies results).length then
        (sortedLatencies results).length * 99 / 100
       else (sortedLatencies results).length - 1) 0 ∈ successLatencies results :=
    hperm.mem_iff.mp (getD_mem_of_lt _ _ hj99lt)
  have hlenq : (0 : ℚ) < ((successLatencies results).length : ℚ) := by
    have hl : 0 < (successLatencies results).length := List.length_pos.mpr hne
    exact_mod_cast hl
  refine ⟨?_, ?_, ?_, ?_, ?_, ?_, ?_, ?_, ?_⟩
  · show listMin (successLatencies results) ≤
      (successLatencies results).sum / ((successLatencies results).length : ℚ)
    rw [le_div_iff₀ hlenq]
    exact card_mul_le_sum _ _ (fun x hx => listMin_le _ x hx)
  · show (successLatencies results).sum / ((successLatencies results).length : ℚ) ≤
      listMax (successLatencies results)
    rw [div_le_iff₀ hlenq]
    exact sum_le_card_mul _ _ (fun x hx => le_listMax _ x hx)
  · show listMin (successLatencies results) ≤ (statsOf results).p50
    rw [hp50]
    exact listMin_le _ _ hm50
  · rw [hp50, hp95]
    exact sorted_getD_mono _ hsorted _ _ h5095 hj95lt
  · rw [hp95, hp99]
    exact sorted_getD_mono _ hsorted _ _ h9599 hj99lt
  · show (statsOf results).p99 ≤ listMax (successLatencies results)
    rw [hp99]
    exact le_listMax _ _ hm99
  · rw [hp50]
    exact hm50
  · rw [hp95]
    exact hm95
  · rw [hp99]
    exact hm99

/-- Mixed successful and failed results for the C10 witness. -/
def mixedResults : List RequestResult :=
  [ { latency_ms := 120, success := true },
    { latency_ms := 80, success := true },
    { latency_ms := 500, success := false, error := some ("HTTP 502") },
    { latency_ms := 240, success := true } ]

/-- Witness for C10 on a mixed success/failure collection. -/
theorem stats_order_invariant_witness :
    (statsOf mixedResults).min ≤ (statsOf mixedResults).avg ∧
    (statsOf mixedResults).avg ≤ (statsOf mixedResults).max ∧
    (statsOf mixedResults).min ≤ (statsOf mixedResults).p50 ∧
    (statsOf mixedResults).p50 ≤ (statsOf mixedResults).p95 ∧
    (statsOf mixedResults).p95 ≤ (statsOf mixedResults).p99 ∧
    (statsOf mixedResults).p99 ≤ (statsOf mixedResults).max ∧
    (statsOf mixedResults).p50 ∈ successLatencies mixedResults ∧
    (statsOf mixedResults).p95 ∈ successLatencies mixedResults ∧
    (statsOf mixedResults).p99 ∈ successLatencies mixedResults :=
  stats_order_invariant mixedResults (statsOf mixedResults)
    (calculate_stats_of_ne_nil _ (by decide))

/-! ### Semaphore scheduler lemmas and the concurrency claim -/

lemma countRunning_replicate_waiting (N : ℕ) :
    countRunning (List.replicate N TaskState.waiting) = 0 := by
  show List.countP isRunning (List.replicate N TaskState.waiting) = 0
  refine List.countP_eq_zero.mpr ?_
  intro a ha
  rw [List.eq_of_mem_replicate ha]
  simp [isRunning]

lemma countRunning_mid (l r : List TaskState) (t : TaskState) :
    countRunning (l ++ t :: r) =
      countRunning l + countRunning r + (if isRunning t then 1 else 0) := by
  simp only [countRunning, List.countP_append, List.countP_cons]
  rw [Nat.add_assoc]

lemma countWaiting_mid (l r : List TaskState) (t : TaskState) :
    countWaiting (l ++ t :: r) =
      countWaiting l + countWaiting r + (if isWaiting t then 1 else 0) := by
  simp only [countWaiting, List.countP_append, List.countP_cons]
  rw [Nat.add_assoc]

lemma semReach_invariant (C N : ℕ) (s : List TaskState) (h : semReach C N s) :
    s.length = N ∧ countRunning s ≤ C := by
  induction h with
  | refl =>
      refine ⟨by simp [semInit], ?_⟩
      rw [semInit, countRunning_replicate_waiting]
      exact Nat.zero_le C
  | tail hreach hstep ih =>
      cases hstep with
      | acquire l r hguard =>
          refine ⟨?_, ?_⟩
          · rw [← ih.1]
            simp
          · rw [countRunning_mid] at hguard ⊢
            simp [isRunning] at hguard ⊢
            omega
      | release l r =>
          have hcount := ih.2
          refine ⟨?_, ?_⟩
          · rw [← ih.1]
            simp
          · rw [countRunning_mid] at hcount ⊢
            simp [isRunning] at hcount ⊢
            omega

lemma semStep_measure_lt (C : ℕ) (s s2 : List TaskState) (h : SemStep C s s2) :
    semMeasure s2 < semMeasure s := by
  cases h with
  | acquire l r hguard =>
      simp [semMeasure, countRunning_mid, countWaiting_mid, isRunning, isWaiting]
      omega
  | release l r =>
      simp [semMeasure, countRunning_mid, countWaiting_mid, isRunning, isWaiting]

lemma semTerminal_all_done (C : ℕ) (hC : 0 < C) (s : List TaskState)
    (hinv : countRunning s ≤ C)
    (hterm : ∀ s2, ¬ SemStep C s s2) :
    ∀ t ∈ s, t = TaskState.done := by
  by_contra hne
  push_neg at hne
  obtain ⟨t, hts, htne⟩ := hne
  obtain ⟨l, r, rfl⟩ := List.append_of_mem hts
  cases t with
  | done => exact htne rfl
  | running => exact hterm _ (SemStep.release l r)
  | waiting =>
      by_cases hlt : countRunning (l ++ TaskState.waiting :: r) < C
      · exact hterm _ (SemStep.acquire l r hlt)
      · have hpos : 0 < countRunning (l ++ TaskState.waiting :: r) := by omega
        have hex : ∃ u ∈ l ++ TaskState.waiting :: r, isRunning u = true :=
          List.countP_pos_iff.mp hpos
        obtain ⟨u, hu, hru⟩ := hex
        have hueq : u = TaskState.running := by
          cases u <;> simp [isRunning] at hru ⊢
        subst hueq
        obtain ⟨l2, r2, heq⟩ := List.append_of_mem hu
        apply hterm (l2 ++ TaskState.done :: r2)
        rw [heq]
        exact SemStep.release l2 r2

/-- C7: in the semaphore scheduling model of a fixed-concurrency run
with `0 < C ≤ N`, every reachable state still holds exactly the `N`
launched tasks; the number of simultaneously outstanding (running)
tasks never exceeds `C`; a state that admits no further step is the
fully completed state of `N` done tasks, one `RequestResult` each — so
the only way a run can stop is with every invocation completed; and the
measure strictly decreases with every step, so every run terminates
(no task waits forever). -/
theorem limiter_bounded_concurrency (N C : ℕ) (hC : 0 < C) (hCN : C ≤ N)
    (s : List TaskState) (hreach : semReach C N s) :
    s.length = N ∧
    countRunning s ≤ C ∧
    ((∀ s2, ¬ SemStep C s s2) → s = List.replicate N TaskState.done) ∧
    (∀ s2, SemStep C s s2 → semMeasure s2 < semMeasure s) := by
  obtain ⟨hlen, hbound⟩ := semReach_invariant C N s hreach
  refine ⟨hlen, hbound, ?_, fun s2 hstep => semStep_measure_lt C s s2 hstep⟩
  intro hterm
  rw [List.eq_replicate_iff]
  exact ⟨hlen, semTerminal_all_done C hC s hbound hterm⟩

/-- Witness for C7: the state reached after the single task of a
`C = N = 1` run acquires the semaphore. -/
theorem limiter_bounded_concurrency_witness :
    ([TaskState.running] : List TaskState).length = 1 ∧
    countRunning [TaskState.running] ≤ 1 := by
  have h := limiter_bounded_concurrency 1 1 (by decide) (by decide)
    [TaskState.running]
    (Relation.ReflTransGen.tail Relation.ReflTransGen.refl
      (SemStep.acquire [] [] (by decide)))
  exact ⟨h.1, h.2.1⟩
